import Mathlib

/-!
# Verification of `ppapi/cpp/completion_callback.h`

A shallow embedding of `pp::CompletionCallback` and
`pp::CompletionCallbackFactory<T>` (file `trunk/cpp/completion_callback.h`).

The C++ objects live on the heap and carry raw pointers, so the embedding
threads an explicit heap: `World T` holds the allocated `BackPointer`
objects ("liveness tokens"), the allocated `CallbackImpl` objects
(the callbacks minted by a factory), the factory itself (one factory per
world, `none` once destroyed), and a trace `calls` recording every
delivery `(object->*method_)(result)` made to the owning object.

Pointers are modelled as natural-number heap ids; a nullable pointer is an
`Option`.  `int32_t ref_` is modelled as `Int` (the reachable counts stay
far from 2^31, and `Int` reproduces the `--ref_ == 0` test exactly,
including the behaviour on a zero count).

A faithfulness note on the `BackPointer` constructor: the only constructor
declared in the source is `BackPointer() : ref_(0), factory_(NULL)`
(line 132), while the call site `InitBackPointer` (line 184) writes
`new BackPointer(this)`.  No declared constructor accepts that argument,
so the embedding uses the declared constructor: the freshly allocated
token starts with `factory_ = NULL`, and the `this` argument passed at
line 184 has nowhere to go.  Nothing in the class ever sets `factory_`
to a non-null value (`DropFactory` only nulls it), a fact several
theorems below record.
-/

namespace PPAPI

/-- `CompletionCallbackFactory<T>::BackPointer` (lines 130-155): a
reference count and a nullable pointer back to the factory.  With a single
factory per world the pointer is a `Bool`: `true` iff `factory_` is
non-null (pointing at the world's factory). -/
structure BackPointer where
  ref : Int
  factory : Bool
  deriving DecidableEq, Repr

/-- `BackPointer() : ref_(0), factory_(NULL)` (line 132) — the only
declared constructor; it takes no factory and leaves `factory_` null. -/
def BackPointer.init : BackPointer := ⟨0, false⟩

/-- The `thunk_` member of `CompletionCallback` is a raw function pointer;
the only value ever stored by this translation unit is
`&CallbackImpl::Thunk` (line 160). -/
inductive ThunkFn where
  | callbackImplThunk
  deriving DecidableEq, Repr

/-- `CompletionCallbackFactory<T>::CallbackImpl` (lines 157-181): the
`thunk_` inherited from `CompletionCallback`, the token pointer
`back_pointer_` and the bound method `method_`. -/
structure CallbackImpl where
  back_pointer : Nat
  method : Nat
  thunk : ThunkFn
  deriving DecidableEq, Repr

/-- The factory's own fields (lines 197-198): `object_` (nullable) and
`back_pointer_`, the id of its current token. -/
structure FactoryState (T : Type) where
  object : Option T
  back_pointer : Nat
  deriving DecidableEq, Repr

/-- The heap and trace.  `factory = none` models the factory having been
destroyed.  `calls` appends `(method, result)` for each delivery
`(object->*(self->method_))(result)` (line 175). -/
structure World (T : Type) where
  tokens : List (Nat × BackPointer)
  handles : List (Nat × CallbackImpl)
  nextId : Nat
  factory : Option (FactoryState T)
  calls : List (Nat × Int)
  deriving DecidableEq, Repr

section Assoc

variable {V : Type}

/-- Dereference a heap id in an association list. -/
def assocFind : List (Nat × V) → Nat → Option V
  | [], _ => none
  | p :: ps, i => if p.1 = i then some p.2 else assocFind ps i

/-- Mutate the object at a heap id in place. -/
def update : List (Nat × V) → Nat → (V → V) → List (Nat × V)
  | [], _, _ => []
  | p :: ps, i, f => (if p.1 = i then (p.1, f p.2) else p) :: update ps i f

/-- Free the object at a heap id. -/
def removeKey : List (Nat × V) → Nat → List (Nat × V)
  | [], _ => []
  | p :: ps, i => if p.1 = i then removeKey ps i else p :: removeKey ps i

end Assoc

variable {T : Type}

/-- Dereference a `BackPointer*`. -/
def lookupToken (w : World T) (i : Nat) : Option BackPointer :=
  assocFind w.tokens i

/-- Dereference a `CallbackImpl*`. -/
def lookupHandle (w : World T) (h : Nat) : Option CallbackImpl :=
  assocFind w.handles h

/-- `BackPointer::AddRef` (lines 135-137): `ref_++`. -/
def addRefToken (w : World T) (i : Nat) : World T :=
  { w with tokens := update w.tokens i fun bp => { bp with ref := bp.ref + 1 } }

/-- `BackPointer::Release` (lines 139-142): `if (--ref_ == 0) delete this`. -/
def releaseToken (w : World T) (i : Nat) : World T :=
  match assocFind w.tokens i with
  | none => w
  | some bp =>
    if bp.ref - 1 = 0 then { w with tokens := removeKey w.tokens i }
    else { w with tokens := update w.tokens i fun b => { b with ref := b.ref - 1 } }

/-- `BackPointer::DropFactory` (lines 144-146): `factory_ = NULL`. -/
def dropFactoryTok (w : World T) (i : Nat) : World T :=
  { w with tokens := update w.tokens i fun bp => { bp with factory := false } }

/-- `CompletionCallbackFactory::GetObject` (lines 116-118), on the live
factory. -/
def factoryGetObject (w : World T) : Option T :=
  w.factory.bind FactoryState.object

/-- `BackPointer::GetObject` (lines 148-150):
`factory_ ? factory_->GetObject() : NULL`. -/
def tokenGetObject (w : World T) (i : Nat) : Option T :=
  match assocFind w.tokens i with
  | some bp => if bp.factory then factoryGetObject w else none
  | none => none

/-- `InitBackPointer` (lines 183-186): allocate a token with the declared
constructor (`ref_ = 0`, `factory_ = NULL`; the `this` argument at the
call site matches no constructor), `AddRef` it, store it as the factory's
current token. -/
def initBackPointer (w : World T) : World T :=
  let tid := w.nextId
  let w1 : World T :=
    { w with tokens := (tid, BackPointer.init) :: w.tokens, nextId := w.nextId + 1 }
  let w2 := addRefToken w1 tid
  { w2 with factory := w2.factory.map fun fs => { fs with back_pointer := tid } }

/-- `ResetBackPointer` (lines 188-191): `DropFactory` then `Release` on the
current token. -/
def resetBackPointer (w : World T) : World T :=
  match w.factory with
  | none => w
  | some fs => releaseToken (dropFactoryTok w fs.back_pointer) fs.back_pointer

/-- The factory constructor (lines 100-104), release semantics: store
`object_`, then `InitBackPointer()`.  (`PP_DCHECK` compiles away outside
debug builds; its condition is `constructAsserts` below.) -/
def construct (object : Option T) : World T :=
  initBackPointer
    { tokens := [], handles := [], nextId := 0,
      factory := some { object := object, back_pointer := 0 }, calls := [] }

/-- Modelled from the spec: `PP_DCHECK` comes from `ppapi/cpp/logging.h`,
which is not part of this tree; per the spec a null owner at construction
is a fatal precondition violation in debug builds.  This is the condition
under which `PP_DCHECK(object_)` (line 102) fires: exactly when the owner
pointer is null. -/
def constructAsserts (object : Option T) : Bool :=
  object.isNone

/-- `~CompletionCallbackFactory` (lines 106-108): `ResetBackPointer()`,
then the factory object itself goes away. -/
def destroyFactory (w : World T) : World T :=
  { resetBackPointer w with factory := none }

/-- `CancelAll` (lines 111-114): `ResetBackPointer(); InitBackPointer();`.
(Calling it on a destroyed factory is C++ UB; the embedding leaves the
world unchanged on that unreachable branch.) -/
def CancelAll (w : World T) : World T :=
  match w.factory with
  | none => w
  | some _ => initBackPointer (resetBackPointer w)

/-- `NewCallback` (lines 125-127) plus the `CallbackImpl` constructor
(lines 159-164): allocate a callback holding the current token and the
method, with `thunk_ = &CallbackImpl::Thunk`, and `AddRef` the token.
Returns the new callback's id.  (On a destroyed factory: UB, unchanged.) -/
def NewCallback (w : World T) (m : Nat) : Nat × World T :=
  match w.factory with
  | none => (0, w)
  | some fs =>
    let hid := w.nextId
    let hd : CallbackImpl := ⟨fs.back_pointer, m, .callbackImplThunk⟩
    let w1 : World T :=
      { w with handles := (hid, hd) :: w.handles, nextId := w.nextId + 1 }
    (hid, addRefToken w1 fs.back_pointer)

/-- `delete self` (line 176) and `~CallbackImpl` (lines 166-168): release
the token, free the callback. -/
def deleteHandle (w : World T) (h : Nat) (hd : CallbackImpl) : World T :=
  releaseToken { w with handles := removeKey w.handles h } hd.back_pointer

/-- `CallbackImpl::Thunk` (lines 171-177): resolve the token to the owning
object; if non-null, deliver `result` to the bound method; then
`delete self` unconditionally. -/
def thunkImpl (w : World T) (h : Nat) (result : Int) : World T :=
  match assocFind w.handles h with
  | none => w
  | some hd =>
    let delivered : World T :=
      match tokenGetObject w hd.back_pointer with
      | some _ => { w with calls := w.calls ++ [(hd.method, result)] }
      | none => w
    deleteHandle delivered h hd

/-- Dispatch through a stored `thunk_` function pointer. -/
def runThunkFn : ThunkFn → World T → Nat → Int → World T
  | .callbackImplThunk, w, ud, r => thunkImpl w ud r

/-- `CompletionCallback::Run` (lines 22-24): `thunk_(this, result)`. -/
def Run (w : World T) (h : Nat) (result : Int) : World T :=
  match lookupHandle w h with
  | some hd => runThunkFn hd.thunk w h result
  | none => w

/-- Modelled from the spec: `PP_CompletionCallback` is declared in
`ppapi/c/pp_completion_callback.h`, which is not part of this tree; per
the spec the primitive handle form is a pair of a dispatch function and
an opaque context pointer, both nullable. -/
structure PPCompletionCallback where
  func : Option ThunkFn
  user_data : Option Nat
  deriving DecidableEq, Repr

/-- Modelled from the spec: `PP_BlockUntilComplete()` (from
`ppapi/c/pp_completion_callback.h`, not in this tree) is the reserved
sentinel pair — null function, null context — meaning "block synchronously
until done". -/
def PPBlockUntilComplete : PPCompletionCallback :=
  { func := none, user_data := none }

/-- `CompletionCallback::ToPP` (lines 27-32): a null callback pointer
becomes the block-until-complete sentinel; otherwise the pair
`{ cc->thunk_, cc }`. -/
def ToPP (w : World T) (cc : Option Nat) : PPCompletionCallback :=
  match cc with
  | none => PPBlockUntilComplete
  | some h => { func := (lookupHandle w h).map CallbackImpl.thunk, user_data := some h }

/-- Modelled from the spec: the external operation starter later invokes
the primitive pair with a result code — it calls `func(user_data, result)`
when both are present (a sentinel pair is never dispatched; it means
synchronous wait). -/
def invokePP (w : World T) (pp : PPCompletionCallback) (result : Int) : World T :=
  match pp.func, pp.user_data with
  | some t, some ud => runThunkFn t w ud result
  | _, _ => w

/-- The operations a client can perform on a live world (the constructor
is `construct`). -/
inductive Op where
  | mint (m : Nat)
  | run (h : Nat) (result : Int)
  | cancelAll
  | destroy
  deriving DecidableEq, Repr

def applyOp (w : World T) : Op → World T
  | .mint m => (NewCallback w m).2
  | .run h r => Run w h r
  | .cancelAll => CancelAll w
  | .destroy => destroyFactory w

/-- `1` iff the factory is alive and `i` is its current token — the
factory's own hold on the token. -/
def factoryHolds (w : World T) (i : Nat) : Int :=
  match w.factory with
  | some fs => if fs.back_pointer = i then 1 else 0
  | none => 0

/-- The number of outstanding callbacks holding token `i`. -/
def handleHolds (w : World T) (i : Nat) : Int :=
  (w.handles.countP fun q => q.2.back_pointer == i : Nat)

/-- The live holders of token `i`: the factory (if it still references
`i`) plus each outstanding callback bound to `i`. -/
def holders (w : World T) (i : Nat) : Int :=
  factoryHolds w i + handleHolds w i

/-- The heap invariant: every allocated token's `ref_` equals its number
of live holders and is positive; every callback's token and the factory's
current token are allocated; ids are unique and below the allocation
counter. -/
def Inv (w : World T) : Prop :=
  (∀ p ∈ w.tokens, p.2.ref = holders w p.1 ∧ 0 < p.2.ref ∧ p.1 < w.nextId) ∧
  (∀ q ∈ w.handles, (assocFind w.tokens q.2.back_pointer).isSome = true ∧ q.1 < w.nextId) ∧
  (∀ fs ∈ w.factory.toList, (assocFind w.tokens fs.back_pointer).isSome = true) ∧
  (w.tokens.map Prod.fst).Nodup ∧ (w.handles.map Prod.fst).Nodup

instance (w : World T) : Decidable (Inv w) := by
  unfold Inv; infer_instance

/-- In every reachable world all tokens have a null `factory_`: the
constructor at line 132 initializes `factory_` to `NULL` (despite the
`this` passed at line 184) and `DropFactory` is the only other write. -/
def AllDropped (w : World T) : Prop :=
  ∀ p ∈ w.tokens, p.2.factory = false

instance (w : World T) : Decidable (AllDropped w) := by
  unfold AllDropped; infer_instance

/-! ## Association-list lemmas -/

section AssocLemmas

variable {V : Type}

theorem assocFind_update (l : List (Nat × V)) (i j : Nat) (f : V → V) :
    assocFind (update l i f) j =
      if j = i then (assocFind l i).map f else assocFind l j := by
  induction l with
  | nil => simp [assocFind, update]
  | cons p ps ih =>
    by_cases hpi : p.1 = i
    · by_cases hji : j = i
      · subst hji
        simp [assocFind, update, hpi]
      · have hij : ¬ i = j := fun h => hji h.symm
        simp [assocFind, update, hpi, hij, hji, ih]
    · by_cases hpj : p.1 = j
      · have hji : ¬ j = i := fun h => hpi (hpj.trans h)
        simp [assocFind, update, hpi, hpj, hji]
      · simp [assocFind, update, hpi, hpj, ih]

theorem assocFind_removeKey (l : List (Nat × V)) (i j : Nat) :
    assocFind (removeKey l i) j = if j = i then none else assocFind l j := by
  induction l with
  | nil => simp [assocFind, removeKey]
  | cons p ps ih =>
    by_cases hpi : p.1 = i
    · by_cases hji : j = i
      · subst hji
        simp [removeKey, hpi, ih]
      · have hij : ¬ i = j := fun h => hji h.symm
        simp [assocFind, removeKey, hpi, hij, hji, ih]
    · by_cases hpj : p.1 = j
      · have hji : ¬ j = i := fun h => hpi (hpj.trans h)
        simp [assocFind, removeKey, hpi, hpj, hji]
      · simp [assocFind, removeKey, hpi, hpj, ih]

theorem keys_update (l : List (Nat × V)) (i : Nat) (f : V → V) :
    (update l i f).map Prod.fst = l.map Prod.fst := by
  induction l with
  | nil => rfl
  | cons p ps ih =>
    by_cases hpi : p.1 = i <;> simp [update, hpi, ih]

theorem update_of_not_mem {l : List (Nat × V)} {i : Nat} (f : V → V)
    (h : i ∉ l.map Prod.fst) : update l i f = l := by
  induction l with
  | nil => rfl
  | cons p ps ih =>
    simp only [List.map_cons, List.mem_cons] at h
    push_neg at h
    have hpi : ¬ p.1 = i := fun hx => h.1 hx.symm
    simp [update, hpi, ih h.2]

theorem removeKey_of_not_mem {l : List (Nat × V)} {i : Nat}
    (h : i ∉ l.map Prod.fst) : removeKey l i = l := by
  induction l with
  | nil => rfl
  | cons p ps ih =>
    simp only [List.map_cons, List.mem_cons] at h
    push_neg at h
    have hpi : ¬ p.1 = i := fun hx => h.1 hx.symm
    simp [removeKey, hpi, ih h.2]

theorem removeKey_update (l : List (Nat × V)) (i : Nat) (f : V → V) :
    removeKey (update l i f) i = removeKey l i := by
  induction l with
  | nil => rfl
  | cons p ps ih =>
    by_cases hpi : p.1 = i <;> simp [update, removeKey, hpi, ih]

theorem update_update (l : List (Nat × V)) (i : Nat) (f g : V → V) :
    update (update l i f) i g = update l i (g ∘ f) := by
  induction l with
  | nil => rfl
  | cons p ps ih =>
    by_cases hpi : p.1 = i <;> simp [update, hpi, ih]

theorem mem_removeKey {l : List (Nat × V)} {i : Nat} {p : Nat × V} :
    p ∈ removeKey l i ↔ p ∈ l ∧ p.1 ≠ i := by
  induction l with
  | nil => simp [removeKey]
  | cons q qs ih =>
    by_cases hqi : q.1 = i
    · rw [show removeKey (q :: qs) i = removeKey qs i by simp [removeKey, hqi]]
      rw [ih]
      constructor
      · rintro ⟨hm, hne⟩
        exact ⟨List.mem_cons_of_mem _ hm, hne⟩
      · rintro ⟨hm, hne⟩
        rcases List.mem_cons.1 hm with rfl | hm2
        · exact absurd hqi hne
        · exact ⟨hm2, hne⟩
    · rw [show removeKey (q :: qs) i = q :: removeKey qs i by simp [removeKey, hqi]]
      simp only [List.mem_cons, ih]
      constructor
      · rintro (rfl | ⟨hm, hne⟩)
        · exact ⟨Or.inl rfl, hqi⟩
        · exact ⟨Or.inr hm, hne⟩
      · rintro ⟨rfl | hm, hne⟩
        · exact Or.inl rfl
        · exact Or.inr ⟨hm, hne⟩

theorem keys_removeKey_sublist (l : List (Nat × V)) (i : Nat) :
    List.Sublist ((removeKey l i).map Prod.fst) (l.map Prod.fst) := by
  induction l with
  | nil => simp [removeKey]
  | cons p ps ih =>
    by_cases hpi : p.1 = i
    · rw [show removeKey (p :: ps) i = removeKey ps i by simp [removeKey, hpi]]
      exact ih.trans (List.sublist_cons_self _ _)
    · rw [show removeKey (p :: ps) i = p :: removeKey ps i by simp [removeKey, hpi]]
      exact ih.cons₂ _

theorem assocFind_isSome_iff {l : List (Nat × V)} {i : Nat} :
    (assocFind l i).isSome = true ↔ i ∈ l.map Prod.fst := by
  induction l with
  | nil => simp [assocFind]
  | cons p ps ih =>
    by_cases hpi : p.1 = i
    · simp [assocFind, hpi]
    · have hip : ¬ i = p.1 := fun h => hpi h.symm
      simp [assocFind, hpi, hip, ih]

theorem assocFind_mem {l : List (Nat × V)} {i : Nat} {v : V}
    (h : assocFind l i = some v) : (i, v) ∈ l := by
  induction l with
  | nil => simp [assocFind] at h
  | cons p ps ih =>
    by_cases hpi : p.1 = i <;> simp [assocFind, hpi] at h
    · rw [← hpi, ← h]
      exact List.mem_cons_self _ _
    · exact List.mem_cons_of_mem _ (ih h)

theorem assocFind_of_mem_nodup {l : List (Nat × V)} {i : Nat} {v : V}
    (hm : (i, v) ∈ l) (hn : (l.map Prod.fst).Nodup) : assocFind l i = some v := by
  induction l with
  | nil => simp at hm
  | cons p ps ih =>
    simp only [List.map_cons, List.nodup_cons] at hn
    rcases List.mem_cons.1 hm with heq | hmem
    · rw [← heq]
      simp [assocFind]
    · have hpi : ¬ p.1 = i := by
        intro h
        exact hn.1 (h ▸ (List.mem_map_of_mem Prod.fst hmem))
      simp [assocFind, hpi, ih hmem hn.2]

theorem countP_removeKey {l : List (Nat × V)} {i : Nat} {v : V}
    (p : Nat × V → Bool) (hm : (i, v) ∈ l) (hn : (l.map Prod.fst).Nodup) :
    l.countP p = (removeKey l i).countP p + (if p (i, v) then 1 else 0) := by
  induction l with
  | nil => simp at hm
  | cons q qs ih =>
    simp only [List.map_cons, List.nodup_cons] at hn
    rcases List.mem_cons.1 hm with heq | hmem
    · have hq : q = (i, v) := heq.symm
      subst hq
      have hfix : removeKey qs i = qs := removeKey_of_not_mem hn.1
      by_cases hp : p (i, v) <;>
        simp [removeKey, List.countP_cons, hp, hfix]
    · have hqi : ¬ q.1 = i := by
        intro h
        exact hn.1 (h ▸ (List.mem_map_of_mem Prod.fst hmem))
      by_cases hp : p q <;>
        simp [removeKey, List.countP_cons, hp, hqi, ih hmem hn.2] <;> omega

theorem countP_eq_zero_forall {l : List (Nat × V)} {p : Nat × V → Bool}
    (h : l.countP p = 0) : ∀ q ∈ l, p q = false := by
  intro q hq
  have := List.countP_eq_zero.1 h q hq
  simpa using this

theorem mem_update {V : Type} {l : List (Nat × V)} {i : Nat} {f : V → V} {p : Nat × V} :
    p ∈ update l i f ↔ ∃ q, q ∈ l ∧ p = (if q.1 = i then (q.1, f q.2) else q) := by
  induction l with
  | nil => simp [update]
  | cons a as ih =>
    rw [show update (a :: as) i f = (if a.1 = i then (a.1, f a.2) else a) :: update as i f
        from rfl]
    simp only [List.mem_cons, ih]
    constructor
    · rintro (rfl | ⟨q, hq, rfl⟩)
      · exact ⟨a, Or.inl rfl, rfl⟩
      · exact ⟨q, Or.inr hq, rfl⟩
    · rintro ⟨q, rfl | hq, rfl⟩
      · exact Or.inl rfl
      · exact Or.inr ⟨q, hq, rfl⟩

end AssocLemmas

/-! ## Effect lemmas: each operation's result, field by field -/

theorem newCallback_eq {w : World T} {fs : FactoryState T} (m : Nat)
    (hfs : w.factory = some fs) :
    NewCallback w m =
      (w.nextId,
        { tokens := update w.tokens fs.back_pointer fun bp => { bp with ref := bp.ref + 1 },
          handles := (w.nextId, ⟨fs.back_pointer, m, .callbackImplThunk⟩) :: w.handles,
          nextId := w.nextId + 1,
          factory := w.factory,
          calls := w.calls }) := by
  simp [NewCallback, hfs, addRefToken]

theorem newCallback_none (m : Nat) {w : World T} (hfs : w.factory = none) :
    NewCallback w m = (0, w) := by
  simp [NewCallback, hfs]

theorem resetBackPointer_eq {w : World T} {fs : FactoryState T} {bp : BackPointer}
    (hfs : w.factory = some fs)
    (hb : assocFind w.tokens fs.back_pointer = some bp) :
    resetBackPointer w =
      { w with tokens :=
          if bp.ref - 1 = 0 then removeKey w.tokens fs.back_pointer
          else update w.tokens fs.back_pointer fun b => ⟨b.ref - 1, false⟩ } := by
  have hdrop : assocFind
      (update w.tokens fs.back_pointer fun b => { b with factory := false })
      fs.back_pointer = some { bp with factory := false } := by
    rw [assocFind_update]
    simp [hb]
  simp only [resetBackPointer, hfs, dropFactoryTok, releaseToken, hdrop]
  have hcomp :
      ((fun b : BackPointer => { b with ref := b.ref - 1 }) ∘
        fun b : BackPointer => { b with factory := false }) =
      fun b : BackPointer => ⟨b.ref - 1, false⟩ := by
    funext b; rfl
  by_cases hz : bp.ref - 1 = 0
  · simp [hz, removeKey_update]
  · simp [hz, update_update, hcomp]

theorem initBackPointer_eq {w : World T} {fs : FactoryState T}
    (hfs : w.factory = some fs) :
    initBackPointer w =
      { w with
          tokens := (w.nextId, ⟨1, false⟩) ::
            update w.tokens w.nextId fun bp => { bp with ref := bp.ref + 1 },
          nextId := w.nextId + 1,
          factory := some { fs with back_pointer := w.nextId } } := by
  simp only [initBackPointer, addRefToken, hfs]
  rw [show update ((w.nextId, BackPointer.init) :: w.tokens) w.nextId
        (fun bp => { bp with ref := bp.ref + 1 }) =
      (w.nextId, ⟨1, false⟩) ::
        update w.tokens w.nextId (fun bp => { bp with ref := bp.ref + 1 }) by
    simp [update, BackPointer.init]]
  rfl

theorem run_eq {w : World T} {h : Nat} {hd : CallbackImpl} {bp : BackPointer} (r : Int)
    (hh : assocFind w.handles h = some hd)
    (hb : assocFind w.tokens hd.back_pointer = some bp) :
    Run w h r =
      { tokens :=
          if bp.ref - 1 = 0 then removeKey w.tokens hd.back_pointer
          else update w.tokens hd.back_pointer fun b => { b with ref := b.ref - 1 },
        handles := removeKey w.handles h,
        nextId := w.nextId,
        factory := w.factory,
        calls := w.calls ++
          (match tokenGetObject w hd.back_pointer with
           | some _ => [(hd.method, r)]
           | none => []) } := by
  obtain ⟨bpi, m, th⟩ := hd
  cases th
  simp only [Run, lookupHandle, hh, runThunkFn, thunkImpl]
  cases hobj : tokenGetObject w bpi <;>
    simp only [deleteHandle, releaseToken, hobj, hb] <;>
    by_cases hz : bp.ref - 1 = 0 <;>
    simp [hz]

theorem run_not_found {w : World T} {h : Nat} (r : Int)
    (hh : assocFind w.handles h = none) : Run w h r = w := by
  simp [Run, lookupHandle, hh]

theorem destroyFactory_eq {w : World T} {fs : FactoryState T} {bp : BackPointer}
    (hfs : w.factory = some fs)
    (hb : assocFind w.tokens fs.back_pointer = some bp) :
    destroyFactory w =
      { w with
          tokens :=
            if bp.ref - 1 = 0 then removeKey w.tokens fs.back_pointer
            else update w.tokens fs.back_pointer fun b => ⟨b.ref - 1, false⟩,
          factory := none } := by
  simp only [destroyFactory, resetBackPointer_eq hfs hb]

theorem cancelAll_eq {w : World T} {fs : FactoryState T} {bp : BackPointer}
    (hfs : w.factory = some fs)
    (hb : assocFind w.tokens fs.back_pointer = some bp) :
    CancelAll w =
      { w with
          tokens := (w.nextId, ⟨1, false⟩) ::
            update
              (if bp.ref - 1 = 0 then removeKey w.tokens fs.back_pointer
               else update w.tokens fs.back_pointer fun b => ⟨b.ref - 1, false⟩)
              w.nextId (fun bp => { bp with ref := bp.ref + 1 }),
          nextId := w.nextId + 1,
          factory := some { fs with back_pointer := w.nextId } } := by
  have hres := resetBackPointer_eq hfs hb
  have hfac : (resetBackPointer w).factory = some fs := by
    rw [hres]
    exact hfs
  simp only [CancelAll, hfs]
  rw [initBackPointer_eq hfac, hres]

/-! ## The heap invariant is established by `construct` and preserved by
every operation -/

theorem factoryHolds_nonneg (w : World T) (i : Nat) : 0 ≤ factoryHolds w i := by
  unfold factoryHolds
  cases w.factory with
  | none => simp
  | some fs => by_cases h : fs.back_pointer = i <;> simp [h]

theorem handleHolds_nonneg (w : World T) (i : Nat) : 0 ≤ handleHolds w i := by
  unfold handleHolds
  positivity

theorem token_key_lt {w : World T} (hw : Inv w) {i : Nat}
    (h : i ∈ w.tokens.map Prod.fst) : i < w.nextId := by
  obtain ⟨p, hp, rfl⟩ := List.mem_map.1 h
  exact (hw.1 p hp).2.2

theorem handle_bp_lt {w : World T} (hw : Inv w) {q : Nat × CallbackImpl}
    (hq : q ∈ w.handles) : q.2.back_pointer < w.nextId :=
  token_key_lt hw (assocFind_isSome_iff.1 (hw.2.1 q hq).1)

theorem inv_construct (obj : Option T) : Inv (construct obj) := by
  unfold construct
  rw [initBackPointer_eq rfl]
  refine ⟨?_, ?_, ?_, ?_, ?_⟩ <;>
    simp [Inv, holders, factoryHolds, handleHolds, assocFind, update]

theorem inv_newCallback (m : Nat) {w : World T} (hw : Inv w) :
    Inv (NewCallback w m).2 := by
  cases hfs : w.factory with
  | none => rw [newCallback_none m hfs]; exact hw
  | some fs =>
    obtain ⟨h1, h2, h3, h4, h5⟩ := hw
    have hbS : (assocFind w.tokens fs.back_pointer).isSome = true := by
      refine h3 fs ?_
      simp [hfs]
    obtain ⟨bp, hb⟩ := Option.isSome_iff_exists.1 hbS
    rw [newCallback_eq m hfs]
    set t := fs.back_pointer with ht
    set n := w.nextId with hn
    have hhol : ∀ i, holders
        { tokens := update w.tokens t fun bp => { bp with ref := bp.ref + 1 },
          handles := (n, (⟨t, m, .callbackImplThunk⟩ : CallbackImpl)) :: w.handles,
          nextId := n + 1, factory := w.factory, calls := w.calls } i =
        holders w i + (if t = i then 1 else 0) := by
      intro i
      by_cases hti : t = i <;>
        simp [holders, factoryHolds, handleHolds, List.countP_cons, hti, hfs] <;>
        push_cast <;> ring
    refine ⟨?_, ?_, ?_, ?_, ?_⟩ <;> dsimp only
    · intro p hp
      rw [mem_update] at hp
      obtain ⟨q, hq, rfl⟩ := hp
      obtain ⟨hq1, hq2, hq3⟩ := h1 q hq
      by_cases hqt : q.1 = t
      · simp only [hqt] at hq1 hq3 ⊢
        simp only [if_true, hhol, if_pos rfl]
        exact ⟨by omega, by omega, by omega⟩
      · have hqt2 : ¬ t = q.1 := fun h => hqt h.symm
        rw [if_neg hqt, hhol, if_neg hqt2]
        exact ⟨by omega, hq2, by omega⟩
    · intro q hq
      rcases List.mem_cons.1 hq with rfl | hq2
      · dsimp only
        constructor
        · rw [assocFind_update, if_pos rfl, hb]
          rfl
        · omega
      · obtain ⟨hs, hlt⟩ := h2 q hq2
        refine ⟨?_, by omega⟩
        rw [assocFind_update]
        by_cases hqt : q.2.back_pointer = t
        · rw [if_pos hqt, hb]
          rfl
        · rw [if_neg hqt]
          exact hs
    · intro fs2 hfs2
      rw [hfs] at hfs2
      simp only [Option.toList_some, List.mem_singleton] at hfs2
      subst hfs2
      rw [assocFind_update, if_pos rfl, hb]
      rfl
    · rw [keys_update]
      exact h4
    · simp only [List.map_cons, List.nodup_cons]
      refine ⟨?_, h5⟩
      intro hmem
      obtain ⟨q, hq, hq1⟩ := List.mem_map.1 hmem
      have := (h2 q hq).2
      omega

theorem inv_run {w : World T} (h : Nat) (r : Int) (hw : Inv w) : Inv (Run w h r) := by
  cases hh : assocFind w.handles h with
  | none => rw [run_not_found r hh]; exact hw
  | some hd =>
    obtain ⟨h1, h2, h3, h4, h5⟩ := hw
    have hmem : (h, hd) ∈ w.handles := assocFind_mem hh
    obtain ⟨bp, hb⟩ := Option.isSome_iff_exists.1 (h2 _ hmem).1
    have htokmem : (hd.back_pointer, bp) ∈ w.tokens := assocFind_mem hb
    obtain ⟨hb1, hb2, hb3⟩ := h1 _ htokmem
    dsimp only at hb hb1 hb2 hb3
    have hcnt : ∀ i, (w.handles.countP fun q => q.2.back_pointer == i) =
        ((removeKey w.handles h).countP fun q => q.2.back_pointer == i) +
        (if hd.back_pointer = i then 1 else 0) := by
      intro i
      have hx := countP_removeKey (fun q => q.2.back_pointer == i) hmem h5
      by_cases hbi : hd.back_pointer = i <;> simp [hbi] at hx ⊢ <;> omega
    have hhol : ∀ (tk : List (Nat × BackPointer)) (cs : List (Nat × Int)) (i : Nat),
        holders { tokens := tk, handles := removeKey w.handles h,
                  nextId := w.nextId, factory := w.factory, calls := cs } i =
          holders w i - (if hd.back_pointer = i then 1 else 0) := by
      intro tk cs i
      simp only [holders, factoryHolds, handleHolds]
      have hx := hcnt i
      by_cases hbi : hd.back_pointer = i <;> simp only [hbi, if_pos rfl, if_neg] <;>
        simp [hbi] at hx ⊢ <;> omega
    rw [run_eq r hh hb]
    by_cases hz : bp.ref - 1 = 0
    · -- the handle held the last reference: the token is freed with it
      rw [if_pos hz]
      have hrefsum : bp.ref =
          factoryHolds w hd.back_pointer + handleHolds w hd.back_pointer := hb1
      have hCrel : handleHolds w hd.back_pointer =
          (((removeKey w.handles h).countP
            fun q => q.2.back_pointer == hd.back_pointer : Nat) : Int) + 1 := by
        have hx := hcnt hd.back_pointer
        simp only [handleHolds]
        rw [if_pos rfl] at hx
        omega
      have hF0 : factoryHolds w hd.back_pointer = 0 := by
        have := factoryHolds_nonneg w hd.back_pointer
        omega
      have hC0 : ((removeKey w.handles h).countP
          fun q => q.2.back_pointer == hd.back_pointer) = 0 := by
        have := factoryHolds_nonneg w hd.back_pointer
        omega
      have hnotref : ∀ q ∈ removeKey w.handles h, q.2.back_pointer ≠ hd.back_pointer := by
        intro q hq hqeq
        have := countP_eq_zero_forall hC0 q hq
        simp [hqeq] at this
      refine ⟨?_, ?_, ?_, ?_, ?_⟩ <;> dsimp only
      · intro p hp
        obtain ⟨hpmem, hpne⟩ := mem_removeKey.1 hp
        obtain ⟨hp1, hp2, hp3⟩ := h1 p hpmem
        rw [hhol]
        rw [if_neg fun hx => hpne hx.symm]
        exact ⟨by omega, hp2, hp3⟩
      · intro q hq
        obtain ⟨hqmem, -⟩ := mem_removeKey.1 hq
        refine ⟨?_, (h2 q hqmem).2⟩
        rw [assocFind_removeKey, if_neg (hnotref q hq)]
        exact (h2 q hqmem).1
      · intro fs2 hfs2
        have hfs2' : w.factory = some fs2 := by
          cases hfac : w.factory with
          | none => rw [hfac] at hfs2; simp at hfs2
          | some fs3 =>
            rw [hfac] at hfs2
            simp only [Option.toList_some, List.mem_singleton] at hfs2
            rw [hfs2]
        have hne : fs2.back_pointer ≠ hd.back_pointer := by
          intro heq
          have hF := hF0
          simp only [factoryHolds, hfs2', if_pos heq] at hF
          omega
        rw [assocFind_removeKey, if_neg hne]
        refine h3 fs2 ?_
        rw [hfs2']
        simp
      · exact h4.sublist (keys_removeKey_sublist _ _)
      · exact h5.sublist (keys_removeKey_sublist _ _)
    · -- other holders remain: the count is decremented
      rw [if_neg hz]
      have hCpos : 0 < (w.handles.countP fun q => q.2.back_pointer == hd.back_pointer) := by
        have hx := hcnt hd.back_pointer
        rw [if_pos rfl] at hx
        omega
      refine ⟨?_, ?_, ?_, ?_, ?_⟩ <;> dsimp only
      · intro p hp
        rw [mem_update] at hp
        obtain ⟨q, hq, rfl⟩ := hp
        obtain ⟨hq1, hq2, hq3⟩ := h1 q hq
        by_cases hqt : q.1 = hd.back_pointer
        · have hqbp : q.2 = bp := by
            have := assocFind_of_mem_nodup hq h4
            rw [hqt] at this
            rw [this] at hb
            exact Option.some_injective _ hb
          simp only [hqt] at hq1 hq3 ⊢
          simp only [if_true, hhol, if_pos rfl]
          have hs : bp.ref = factoryHolds w hd.back_pointer + handleHolds w hd.back_pointer :=
            hb1
          have hF := factoryHolds_nonneg w hd.back_pointer
          have hH : handleHolds w hd.back_pointer =
              ((w.handles.countP fun q => q.2.back_pointer == hd.back_pointer : Nat) : Int) :=
            rfl
          rw [hqbp]
          refine ⟨by omega, ?_, hq3⟩
          dsimp only
          omega
        · have hqt2 : ¬ hd.back_pointer = q.1 := fun hx => hqt hx.symm
          rw [if_neg hqt, hhol, if_neg hqt2]
          exact ⟨by omega, hq2, hq3⟩
      · intro q hq
        obtain ⟨hqmem, -⟩ := mem_removeKey.1 hq
        refine ⟨?_, (h2 q hqmem).2⟩
        rw [assocFind_update]
        by_cases hqt : q.2.back_pointer = hd.back_pointer
        · rw [if_pos hqt, hb]
          rfl
        · rw [if_neg hqt]
          exact (h2 q hqmem).1
      · intro fs2 hfs2
        have hfs2' : w.factory = some fs2 := by
          cases hfac : w.factory with
          | none => rw [hfac] at hfs2; simp at hfs2
          | some fs3 =>
            rw [hfac] at hfs2
            simp only [Option.toList_some, List.mem_singleton] at hfs2
            rw [hfs2]
        rw [assocFind_update]
        by_cases hft : fs2.back_pointer = hd.back_pointer
        · rw [if_pos hft, hb]
          rfl
        · rw [if_neg hft]
          refine h3 fs2 ?_
          rw [hfs2']
          simp
      · rw [keys_update]
        exact h4
      · exact h5.sublist (keys_removeKey_sublist _ _)

theorem inv_destroy {w : World T} (hw : Inv w) : Inv (destroyFactory w) := by
  obtain ⟨h1, h2, h3, h4, h5⟩ := hw
  cases hfs : w.factory with
  | none =>
    have heq : destroyFactory w = { w with factory := none } := by
      simp [destroyFactory, resetBackPointer, hfs]
    rw [heq]
    have hhol : ∀ i, holders ({ w with factory := none } : World T) i = holders w i := by
      intro i
      simp [holders, factoryHolds, handleHolds, hfs]
    refine ⟨?_, ?_, ?_, ?_, ?_⟩ <;> dsimp only
    · intro p hp
      rw [hhol]
      exact h1 p hp
    · exact h2
    · intro fs2 hfs2
      simp at hfs2
    · exact h4
    · exact h5
  | some fs =>
    have hbS := h3 fs (by rw [hfs]; simp)
    obtain ⟨bp, hb⟩ := Option.isSome_iff_exists.1 hbS
    have htokmem := assocFind_mem hb
    obtain ⟨hb1, hb2, hb3⟩ := h1 _ htokmem
    dsimp only at hb1 hb2 hb3
    rw [destroyFactory_eq hfs hb]
    have hF1 : factoryHolds w fs.back_pointer = 1 := by
      simp [factoryHolds, hfs]
    have hsplit : ∀ i, holders w i = factoryHolds w i + handleHolds w i := fun _ => rfl
    have hHnn : ∀ i, 0 ≤ handleHolds w i := handleHolds_nonneg w
    have hhol : ∀ (tk : List (Nat × BackPointer)) (i : Nat),
        holders (World.mk tk w.handles w.nextId (none : Option (FactoryState T)) w.calls) i =
          handleHolds w i := by
      intro tk i
      simp [holders, factoryHolds, handleHolds]
    have hFo : ∀ i, fs.back_pointer ≠ i → factoryHolds w i = 0 := by
      intro i hne
      simp [factoryHolds, hfs, hne]
    by_cases hz : bp.ref - 1 = 0
    · -- the factory held the last reference: the current token is freed
      rw [if_pos hz]
      have hC0 : (w.handles.countP fun q => q.2.back_pointer == fs.back_pointer) = 0 := by
        have hx := hsplit fs.back_pointer
        have hy : handleHolds w fs.back_pointer =
            ((w.handles.countP fun q => q.2.back_pointer == fs.back_pointer : Nat) : Int) :=
          rfl
        omega
      have hnotref : ∀ q ∈ w.handles, q.2.back_pointer ≠ fs.back_pointer := by
        intro q hq hqeq
        have := countP_eq_zero_forall hC0 q hq
        simp [hqeq] at this
      refine ⟨?_, ?_, ?_, ?_, ?_⟩ <;> dsimp only
      · intro p hp
        obtain ⟨hpmem, hpne⟩ := mem_removeKey.1 hp
        obtain ⟨hp1, hp2, hp3⟩ := h1 p hpmem
        rw [hhol]
        have := hFo p.1 fun hx => hpne hx.symm
        have := hsplit p.1
        exact ⟨by omega, hp2, hp3⟩
      · intro q hq
        refine ⟨?_, (h2 q hq).2⟩
        rw [assocFind_removeKey, if_neg (hnotref q hq)]
        exact (h2 q hq).1
      · intro fs2 hfs2
        simp at hfs2
      · exact h4.sublist (keys_removeKey_sublist _ _)
      · exact h5
    · -- outstanding callbacks keep the token alive with a decremented count
      rw [if_neg hz]
      refine ⟨?_, ?_, ?_, ?_, ?_⟩ <;> dsimp only
      · intro p hp
        rw [mem_update] at hp
        obtain ⟨q, hq, rfl⟩ := hp
        obtain ⟨hq1, hq2, hq3⟩ := h1 q hq
        by_cases hqt : q.1 = fs.back_pointer
        · have hqbp : q.2 = bp := by
            have hx := assocFind_of_mem_nodup hq h4
            rw [hqt] at hx
            rw [hx] at hb
            exact Option.some_injective _ hb
          simp only [hqt] at hq1 hq3 ⊢
          simp only [if_true, hhol]
          rw [hqbp]
          have hx := hsplit fs.back_pointer
          refine ⟨by omega, ?_, hq3⟩
          dsimp only
          omega
        · have hqt2 : ¬ fs.back_pointer = q.1 := fun hx => hqt hx.symm
          rw [if_neg hqt, hhol]
          have := hFo q.1 hqt2
          have := hsplit q.1
          exact ⟨by omega, hq2, hq3⟩
      · intro q hq
        refine ⟨?_, (h2 q hq).2⟩
        rw [assocFind_update]
        by_cases hqt : q.2.back_pointer = fs.back_pointer
        · rw [if_pos hqt, hb]
          rfl
        · rw [if_neg hqt]
          exact (h2 q hq).1
      · intro fs2 hfs2
        simp at hfs2
      · rw [keys_update]
        exact h4
      · exact h5

theorem inv_cancelAll {w : World T} (hw : Inv w) : Inv (CancelAll w) := by
  cases hfs : w.factory with
  | none =>
    have heq : CancelAll w = w := by
      simp [CancelAll, hfs]
    rw [heq]
    exact hw
  | some fs =>
    obtain ⟨h1, h2, h3, h4, h5⟩ := hw
    have hbS := h3 fs (by rw [hfs]; simp)
    obtain ⟨bp, hb⟩ := Option.isSome_iff_exists.1 hbS
    have htokmem := assocFind_mem hb
    obtain ⟨hb1, hb2, hb3⟩ := h1 _ htokmem
    dsimp only at hb1 hb2 hb3
    have hkeylt : ∀ i ∈ w.tokens.map Prod.fst, i < w.nextId := by
      intro i hi
      obtain ⟨p, hp, rfl⟩ := List.mem_map.1 hi
      exact (h1 p hp).2.2
    have hbplt : ∀ q ∈ w.handles, q.2.back_pointer < w.nextId := by
      intro q hq
      obtain ⟨v, hv⟩ := Option.isSome_iff_exists.1 (h2 q hq).1
      exact (h1 _ (assocFind_mem hv)).2.2
    have hcnt_n : (w.handles.countP fun q => q.2.back_pointer == w.nextId) = 0 := by
      rw [List.countP_eq_zero]
      intro q hq
      have := hbplt q hq
      simp only [beq_iff_eq]
      omega
    have hH_n : handleHolds w w.nextId = 0 := by
      simp [handleHolds, hcnt_n]
    have hF1 : factoryHolds w fs.back_pointer = 1 := by
      simp [factoryHolds, hfs]
    have hFo : ∀ i, fs.back_pointer ≠ i → factoryHolds w i = 0 := by
      intro i hne
      simp [factoryHolds, hfs, hne]
    have hsplit : ∀ i, holders w i = factoryHolds w i + handleHolds w i := fun _ => rfl
    have hHnn : ∀ i, 0 ≤ handleHolds w i := handleHolds_nonneg w
    have hhol : ∀ (tk : List (Nat × BackPointer)) (i : Nat),
        holders (World.mk tk w.handles (w.nextId + 1)
            (some { fs with back_pointer := w.nextId }) w.calls) i =
          (if w.nextId = i then 1 else 0) + handleHolds w i := by
      intro tk i
      by_cases hni : w.nextId = i <;> simp [holders, factoryHolds, handleHolds, hni]
    rw [cancelAll_eq hfs hb]
    by_cases hz : bp.ref - 1 = 0
    · -- the factory held the last reference to the old token: it is freed
      rw [if_pos hz]
      have hnot : w.nextId ∉ (removeKey w.tokens fs.back_pointer).map Prod.fst := by
        intro hmem2
        have := hkeylt _ ((keys_removeKey_sublist _ _).subset hmem2)
        omega
      rw [update_of_not_mem _ hnot]
      have hC0 : (w.handles.countP fun q => q.2.back_pointer == fs.back_pointer) = 0 := by
        have hx := hsplit fs.back_pointer
        have hy : handleHolds w fs.back_pointer =
            ((w.handles.countP fun q => q.2.back_pointer == fs.back_pointer : Nat) : Int) :=
          rfl
        omega
      have hnotref : ∀ q ∈ w.handles, q.2.back_pointer ≠ fs.back_pointer := by
        intro q hq hqeq
        have := countP_eq_zero_forall hC0 q hq
        simp [hqeq] at this
      refine ⟨?_, ?_, ?_, ?_, ?_⟩ <;> dsimp only
      · intro p hp
        rcases List.mem_cons.1 hp with rfl | hptail
        · rw [hhol, if_pos rfl]
          refine ⟨by dsimp only; omega, by norm_num, by omega⟩
        · obtain ⟨hpmem, hpne⟩ := mem_removeKey.1 hptail
          obtain ⟨hp1, hp2, hp3⟩ := h1 p hpmem
          have hpn : ¬ w.nextId = p.1 := by
            have := hkeylt _ (List.mem_map_of_mem Prod.fst hpmem)
            omega
          rw [hhol, if_neg hpn]
          have := hFo p.1 fun hx => hpne hx.symm
          have := hsplit p.1
          exact ⟨by omega, hp2, by omega⟩
      · intro q hq
        refine ⟨?_, by have := (h2 q hq).2; omega⟩
        have hqn : ¬ (w.nextId = q.2.back_pointer) := by
          have := hbplt q hq
          omega
        rw [show assocFind ((w.nextId, (⟨1, false⟩ : BackPointer)) ::
              removeKey w.tokens fs.back_pointer) q.2.back_pointer =
            assocFind (removeKey w.tokens fs.back_pointer) q.2.back_pointer by
          simp [assocFind, hqn]]
        rw [assocFind_removeKey, if_neg (hnotref q hq)]
        exact (h2 q hq).1
      · intro fs2 hfs2
        simp only [Option.toList_some, List.mem_singleton] at hfs2
        subst hfs2
        simp [assocFind]
      · simp only [List.map_cons, List.nodup_cons]
        exact ⟨hnot, h4.sublist (keys_removeKey_sublist _ _)⟩
      · exact h5
    · -- outstanding callbacks keep the old token alive, with the factory's
      -- reference released and its back pointer dropped
      rw [if_neg hz]
      have hnot : w.nextId ∉
          (update w.tokens fs.back_pointer fun b =>
            (⟨b.ref - 1, false⟩ : BackPointer)).map Prod.fst := by
        rw [keys_update]
        intro hmem2
        have := hkeylt _ hmem2
        omega
      rw [update_of_not_mem _ hnot]
      refine ⟨?_, ?_, ?_, ?_, ?_⟩ <;> dsimp only
      · intro p hp
        rcases List.mem_cons.1 hp with rfl | hptail
        · rw [hhol, if_pos rfl]
          refine ⟨by dsimp only; omega, by norm_num, by omega⟩
        · rw [mem_update] at hptail
          obtain ⟨q, hq, rfl⟩ := hptail
          obtain ⟨hq1, hq2, hq3⟩ := h1 q hq
          by_cases hqt : q.1 = fs.back_pointer
          · have hqbp : q.2 = bp := by
              have hx := assocFind_of_mem_nodup hq h4
              rw [hqt] at hx
              rw [hx] at hb
              exact Option.some_injective _ hb
            simp only [hqt] at hq1 hq3 ⊢
            simp only [if_true, hhol]
            rw [hqbp]
            have hqn : ¬ w.nextId = fs.back_pointer := by omega
            rw [if_neg hqn]
            have hx := hsplit fs.back_pointer
            refine ⟨by omega, by omega, by omega⟩
          · have hqn : ¬ w.nextId = q.1 := by omega
            rw [if_neg hqt, hhol, if_neg hqn]
            have := hFo q.1 fun hx => hqt hx.symm
            have := hsplit q.1
            exact ⟨by omega, hq2, by omega⟩
      · intro q hq
        refine ⟨?_, by have := (h2 q hq).2; omega⟩
        have hqn : ¬ (w.nextId = q.2.back_pointer) := by
          have := hbplt q hq
          omega
        rw [show assocFind ((w.nextId, (⟨1, false⟩ : BackPointer)) ::
              update w.tokens fs.back_pointer fun b =>
                (⟨b.ref - 1, false⟩ : BackPointer)) q.2.back_pointer =
            assocFind (update w.tokens fs.back_pointer fun b =>
                (⟨b.ref - 1, false⟩ : BackPointer)) q.2.back_pointer by
          simp [assocFind, hqn]]
        rw [assocFind_update]
        by_cases hqt : q.2.back_pointer = fs.back_pointer
        · rw [if_pos hqt, hb]
          rfl
        · rw [if_neg hqt]
          exact (h2 q hq).1
      · intro fs2 hfs2
        simp only [Option.toList_some, List.mem_singleton] at hfs2
        subst hfs2
        simp [assocFind]
      · simp only [List.map_cons, List.nodup_cons]
        refine ⟨hnot, ?_⟩
        rw [keys_update]
        exact h4
      · exact h5

theorem releaseToken_handles (w : World T) (i : Nat) :
    (releaseToken w i).handles = w.handles := by
  unfold releaseToken
  cases assocFind w.tokens i with
  | none => rfl
  | some bp =>
    dsimp only
    by_cases hz : bp.ref - 1 = 0 <;> simp [hz]

theorem releaseToken_factory (w : World T) (i : Nat) :
    (releaseToken w i).factory = w.factory := by
  unfold releaseToken
  cases assocFind w.tokens i with
  | none => rfl
  | some bp =>
    dsimp only
    by_cases hz : bp.ref - 1 = 0 <;> simp [hz]

theorem releaseToken_calls (w : World T) (i : Nat) :
    (releaseToken w i).calls = w.calls := by
  unfold releaseToken
  cases assocFind w.tokens i with
  | none => rfl
  | some bp =>
    dsimp only
    by_cases hz : bp.ref - 1 = 0 <;> simp [hz]

theorem resetBackPointer_handles (w : World T) :
    (resetBackPointer w).handles = w.handles := by
  unfold resetBackPointer
  cases h : w.factory with
  | none => rfl
  | some fs =>
    rw [releaseToken_handles]
    rfl

theorem resetBackPointer_factory (w : World T) :
    (resetBackPointer w).factory = w.factory := by
  unfold resetBackPointer
  cases h : w.factory with
  | none => exact h
  | some fs =>
    rw [releaseToken_factory]
    exact h

theorem resetBackPointer_calls (w : World T) :
    (resetBackPointer w).calls = w.calls := by
  unfold resetBackPointer
  cases h : w.factory with
  | none => rfl
  | some fs =>
    rw [releaseToken_calls]
    rfl

theorem destroyFactory_handles (w : World T) :
    (destroyFactory w).handles = w.handles :=
  resetBackPointer_handles w

theorem cancelAll_handles (w : World T) : (CancelAll w).handles = w.handles := by
  unfold CancelAll
  cases h : w.factory with
  | none => rfl
  | some fs =>
    show (initBackPointer (resetBackPointer w)).handles = w.handles
    rw [show (initBackPointer (resetBackPointer w)).handles =
        (resetBackPointer w).handles from rfl, resetBackPointer_handles]

theorem cancelAll_calls (w : World T) : (CancelAll w).calls = w.calls := by
  unfold CancelAll
  cases h : w.factory with
  | none => rfl
  | some fs =>
    show (initBackPointer (resetBackPointer w)).calls = w.calls
    rw [show (initBackPointer (resetBackPointer w)).calls =
        (resetBackPointer w).calls from rfl, resetBackPointer_calls]

theorem cancelAll_factoryGetObject (w : World T) :
    factoryGetObject (CancelAll w) = factoryGetObject w := by
  unfold CancelAll
  cases h : w.factory with
  | none => rfl
  | some fs =>
    show factoryGetObject (initBackPointer (resetBackPointer w)) = factoryGetObject w
    have h1 : (initBackPointer (resetBackPointer w)).factory =
        ((resetBackPointer w).factory).map
          (fun fs2 => { fs2 with back_pointer := (resetBackPointer w).nextId }) := rfl
    unfold factoryGetObject
    rw [h1, resetBackPointer_factory, h]
    rfl

theorem cancelAll_iterate_getObject (n : Nat) : ∀ (w : World T),
    factoryGetObject (Nat.iterate CancelAll n w) = factoryGetObject w := by
  induction n with
  | zero => intro w; rfl
  | succ k ih =>
    intro w
    rw [show Nat.iterate CancelAll (k + 1) w =
        Nat.iterate CancelAll k (CancelAll w) from rfl]
    rw [ih (CancelAll w), cancelAll_factoryGetObject]

/-- Every operation preserves the heap invariant. -/
theorem inv_applyOp {w : World T} (op : Op) (hw : Inv w) : Inv (applyOp w op) := by
  cases op with
  | mint m => exact inv_newCallback m hw
  | run h r => exact inv_run h r hw
  | cancelAll => exact inv_cancelAll hw
  | destroy => exact inv_destroy hw

/-- Under the invariant, a token is allocated exactly while it has a live
holder. -/
theorem token_alloc_iff_holders {w : World T} (hw : Inv w) (i : Nat) :
    (assocFind w.tokens i).isSome = true ↔ 0 < holders w i := by
  constructor
  · intro hs
    obtain ⟨bp, hb⟩ := Option.isSome_iff_exists.1 hs
    obtain ⟨hb1, hb2, -⟩ := hw.1 _ (assocFind_mem hb)
    dsimp only at hb1 hb2
    omega
  · intro hpos
    by_cases hF : factoryHolds w i = 0
    · have hsplit : holders w i = factoryHolds w i + handleHolds w i := rfl
      have hH : 0 < handleHolds w i := by omega
      have hc : 0 < (w.handles.countP fun q => q.2.back_pointer == i) := by
        have hy : handleHolds w i =
            ((w.handles.countP fun q => q.2.back_pointer == i : Nat) : Int) := rfl
        omega
      obtain ⟨q, hq, hpq⟩ := List.countP_pos_iff.1 hc
      have hbq : q.2.back_pointer = i := by simpa using hpq
      have := (hw.2.1 q hq).1
      rw [hbq] at this
      exact this
    · cases hfs : w.factory with
      | none =>
        exfalso
        apply hF
        simp [factoryHolds, hfs]
      | some fs =>
        have hcur : fs.back_pointer = i := by
          by_contra hne
          apply hF
          simp [factoryHolds, hfs, hne]
        have := hw.2.2.1 fs (by rw [hfs]; simp)
        rw [hcur] at this
        exact this

theorem tokenGetObject_allDropped {w : World T} (had : AllDropped w) (i : Nat) :
    tokenGetObject w i = none := by
  unfold tokenGetObject
  cases hx : assocFind w.tokens i with
  | none => rfl
  | some bp =>
    have := had _ (assocFind_mem hx)
    dsimp only at this
    simp [this]

theorem allDropped_construct (obj : Option T) : AllDropped (construct obj) := by
  intro p hp
  simp [construct, initBackPointer, addRefToken, update, BackPointer.init] at hp
  rw [hp]

theorem allDropped_applyOp {w : World T} (op : Op) (hw : Inv w)
    (had : AllDropped w) : AllDropped (applyOp w op) := by
  obtain ⟨h1, h2, h3, h4, h5⟩ := hw
  cases op with
  | mint m =>
    cases hfs : w.factory with
    | none =>
      show AllDropped (NewCallback w m).2
      rw [newCallback_none m hfs]
      exact had
    | some fs =>
      show AllDropped (NewCallback w m).2
      rw [newCallback_eq m hfs]
      intro p hp
      dsimp only at hp
      rw [mem_update] at hp
      obtain ⟨q, hq, rfl⟩ := hp
      by_cases hqt : q.1 = fs.back_pointer <;> simp [hqt] <;> exact had q hq
  | run h r =>
    show AllDropped (Run w h r)
    cases hh : assocFind w.handles h with
    | none => rw [run_not_found r hh]; exact had
    | some hd =>
      obtain ⟨bp, hb⟩ := Option.isSome_iff_exists.1 (h2 _ (assocFind_mem hh)).1
      rw [run_eq r hh hb]
      intro p hp
      dsimp only at hp
      by_cases hz : bp.ref - 1 = 0
      · rw [if_pos hz] at hp
        exact had p (mem_removeKey.1 hp).1
      · rw [if_neg hz] at hp
        rw [mem_update] at hp
        obtain ⟨q, hq, rfl⟩ := hp
        by_cases hqt : q.1 = hd.back_pointer <;> simp [hqt] <;> exact had q hq
  | destroy =>
    show AllDropped (destroyFactory w)
    cases hfs : w.factory with
    | none =>
      have heq : destroyFactory w = { w with factory := none } := by
        simp [destroyFactory, resetBackPointer, hfs]
      rw [heq]
      exact had
    | some fs =>
      obtain ⟨bp, hb⟩ := Option.isSome_iff_exists.1 (h3 fs (by rw [hfs]; simp))
      rw [destroyFactory_eq hfs hb]
      intro p hp
      dsimp only at hp
      by_cases hz : bp.ref - 1 = 0
      · rw [if_pos hz] at hp
        exact had p (mem_removeKey.1 hp).1
      · rw [if_neg hz] at hp
        rw [mem_update] at hp
        obtain ⟨q, hq, rfl⟩ := hp
        by_cases hqt : q.1 = fs.back_pointer <;> simp [hqt]
        exact had q hq
  | cancelAll =>
    show AllDropped (CancelAll w)
    cases hfs : w.factory with
    | none =>
      have heq : CancelAll w = w := by simp [CancelAll, hfs]
      rw [heq]
      exact had
    | some fs =>
      obtain ⟨bp, hb⟩ := Option.isSome_iff_exists.1 (h3 fs (by rw [hfs]; simp))
      rw [cancelAll_eq hfs hb]
      intro p hp
      dsimp only at hp
      rcases List.mem_cons.1 hp with rfl | hptail
      · rfl
      · rw [mem_update] at hptail
        obtain ⟨q, hq, rfl⟩ := hptail
        have hq2 : q.2.factory = false := by
          by_cases hz : bp.ref - 1 = 0
          · rw [if_pos hz] at hq
            exact had q (mem_removeKey.1 hq).1
          · rw [if_neg hz] at hq
            rw [mem_update] at hq
            obtain ⟨q2, hq2m, rfl⟩ := hq
            by_cases hq2t : q2.1 = fs.back_pointer <;> simp [hq2t]
            exact had q2 hq2m
        by_cases hqn : q.1 = w.nextId <;> simp [hqn] <;> exact hq2

/-- Invoking an outstanding callback in a world whose tokens all have a
null factory pointer (every reachable world, and in particular any world
after the factory was destroyed or reset): no delivery happens, the
callback is destroyed, the invariant is preserved, and a token whose last
holder was this callback is freed. -/
theorem run_stale {w : World T} (h : Nat) (r : Int) {hd : CallbackImpl}
    (hw : Inv w) (had : AllDropped w)
    (hh : lookupHandle w h = some hd) :
    (Run w h r).calls = w.calls ∧
    lookupHandle (Run w h r) h = none ∧
    Inv (Run w h r) ∧
    (holders w hd.back_pointer = 1 →
      lookupToken (Run w h r) hd.back_pointer = none) := by
  have hh2 : assocFind w.handles h = some hd := hh
  obtain ⟨bp, hb⟩ := Option.isSome_iff_exists.1 (hw.2.1 _ (assocFind_mem hh2)).1
  have hbref : bp.ref = holders w hd.back_pointer := by
    have := (hw.1 _ (assocFind_mem hb)).1
    dsimp only at this
    exact this
  have heq := run_eq r hh2 hb
  refine ⟨?_, ?_, inv_run h r hw, ?_⟩
  · rw [heq]
    dsimp only
    rw [tokenGetObject_allDropped had]
    simp
  · show assocFind (Run w h r).handles h = none
    rw [heq]
    dsimp only
    rw [assocFind_removeKey, if_pos rfl]
  · intro hone
    show assocFind (Run w h r).tokens hd.back_pointer = none
    rw [heq]
    dsimp only
    rw [if_pos (by omega), assocFind_removeKey, if_pos rfl]

/-- C2: for every outstanding callback of a well-formed world, destroying
the factory (or resetting it with `CancelAll`) and then invoking the
callback delivers no call to the bound method, destroys the callback, and
preserves the heap invariant (so nothing leaks: every surviving token's
count equals its holder count and tokens are freed at zero); if the
callback held the token's last reference, the token itself is freed. -/
theorem c2_stale_handle_invoke_safe (w : World T) (h : Nat) (r : Int)
    (hd : CallbackImpl) (hw : Inv w) (had : AllDropped w)
    (hh : lookupHandle w h = some hd) :
    ((Run (destroyFactory w) h r).calls = (destroyFactory w).calls ∧
      lookupHandle (Run (destroyFactory w) h r) h = none ∧
      Inv (Run (destroyFactory w) h r) ∧
      (holders (destroyFactory w) hd.back_pointer = 1 →
        lookupToken (Run (destroyFactory w) h r) hd.back_pointer = none)) ∧
    ((Run (CancelAll w) h r).calls = (CancelAll w).calls ∧
      lookupHandle (Run (CancelAll w) h r) h = none ∧
      Inv (Run (CancelAll w) h r)) := by
  have hdead := inv_destroy hw
  have hdda : AllDropped (destroyFactory w) := allDropped_applyOp .destroy ⟨hw.1, hw.2⟩ had
  have hhd : lookupHandle (destroyFactory w) h = some hd := by
    show assocFind (destroyFactory w).handles h = some hd
    rw [destroyFactory_handles]
    exact hh
  have hcan := inv_cancelAll hw
  have hcda : AllDropped (CancelAll w) := allDropped_applyOp .cancelAll ⟨hw.1, hw.2⟩ had
  have hhc : lookupHandle (CancelAll w) h = some hd := by
    show assocFind (CancelAll w).handles h = some hd
    rw [cancelAll_handles]
    exact hh
  have hres1 := run_stale h r hdead hdda hhd
  have hres2 := run_stale h r hcan hcda hhc
  exact ⟨hres1, hres2.1, hres2.2.1, hres2.2.2.1⟩

/-- C5: reference counting on the liveness token: the invariant (each
allocated token's `ref_` equals its number of live holders — the factory,
if the token is its current one, plus each outstanding callback — and is
positive) holds after construction, is preserved by minting, invoking,
`CancelAll` and factory destruction, and under it a token is allocated
exactly while it has at least one holder, so the token is freed exactly
when the factory no longer references it and every callback minted under
it has been invoked or destroyed. -/
theorem c5_refcount_matches_holders :
    (∀ (T : Type) (obj : Option T), Inv (construct obj)) ∧
    (∀ (T : Type) (w : World T) (op : Op), Inv w → Inv (applyOp w op)) ∧
    (∀ (T : Type) (w : World T), Inv w →
      ∀ i, (lookupToken w i).isSome = true ↔ 0 < holders w i) :=
  ⟨fun _ obj => inv_construct obj,
   fun _ _ op hw => inv_applyOp op hw,
   fun _ _ hw i => token_alloc_iff_holders hw i⟩

/-- C6: invoking a callback always consumes it, whether or not a target
was resolved: the callback object is freed, and its reference on the
liveness token is released — the token is freed if this was the last
reference, and its count is decremented by exactly one otherwise. -/
theorem c6_invoke_always_consumes (w : World T) (h : Nat) (r : Int)
    (hd : CallbackImpl) (bp : BackPointer)
    (hh : lookupHandle w h = some hd)
    (hb : lookupToken w hd.back_pointer = some bp) :
    lookupHandle (Run w h r) h = none ∧
    (bp.ref - 1 = 0 → lookupToken (Run w h r) hd.back_pointer = none) ∧
    (¬ bp.ref - 1 = 0 → lookupToken (Run w h r) hd.back_pointer =
      some { bp with ref := bp.ref - 1 }) := by
  have hh2 : assocFind w.handles h = some hd := hh
  have hb2 : assocFind w.tokens hd.back_pointer = some bp := hb
  have heq := run_eq r hh2 hb2
  refine ⟨?_, ?_, ?_⟩
  · show assocFind (Run w h r).handles h = none
    rw [heq]
    dsimp only
    rw [assocFind_removeKey, if_pos rfl]
  · intro hz
    show assocFind (Run w h r).tokens hd.back_pointer = none
    rw [heq]
    dsimp only
    rw [if_pos hz, assocFind_removeKey, if_pos rfl]
  · intro hz
    show assocFind (Run w h r).tokens hd.back_pointer =
      some { bp with ref := bp.ref - 1 }
    rw [heq]
    dsimp only
    rw [if_neg hz, assocFind_update, if_pos rfl, hb2]
    rfl

/-- C7: converting a null `CompletionCallback*` with `ToPP` yields the
reserved block-until-complete sentinel (null dispatch function, null
context), not an error. -/
theorem c7_null_to_pp_block_until_complete :
    ∀ (T : Type) (w : World T),
      ToPP w none = PPBlockUntilComplete ∧
      PPBlockUntilComplete.func = none ∧ PPBlockUntilComplete.user_data = none :=
  fun _ _ => ⟨rfl, rfl, rfl⟩

/-- C8: for a non-null callback, externally invoking the
(dispatch function, context) pair produced by `ToPP` with result `r` has
exactly the same effect on the world as calling `Run r` on the callback
directly. -/
theorem c8_to_pp_pair_equiv_run (w : World T) (h : Nat) (hd : CallbackImpl)
    (r : Int) (hh : lookupHandle w h = some hd) :
    invokePP w (ToPP w (some h)) r = Run w h r := by
  simp [invokePP, ToPP, Run, hh]

/-- C9: the factory constructor's `PP_DCHECK(object_)` fires exactly on a
null owner: the assertion branch is unreachable for every non-null owner,
and a null owner is an assertion (precondition) violation. -/
theorem c9_null_owner_is_assert_violation :
    (∀ (T : Type) (o : T), constructAsserts (some o) = false) ∧
    constructAsserts (none : Option Unit) = true :=
  ⟨fun _ _ => rfl, rfl⟩

/-- C10: `CancelAll` touches only the liveness tokens: the outstanding
callbacks (their token references and bound methods) and the call trace
are unchanged, the owning-object reference survives any number of
`CancelAll` calls, a fresh current token (count 1) is installed at the
next free id, and every token other than the old current one and the
fresh one is untouched. -/
theorem c10_cancel_all_frame (w : World T) (fs : FactoryState T)
    (hw : Inv w) (hfs : w.factory = some fs) :
    (CancelAll w).handles = w.handles ∧
    (CancelAll w).calls = w.calls ∧
    (∀ n, factoryGetObject (Nat.iterate CancelAll n w) = factoryGetObject w) ∧
    ((CancelAll w).factory.map FactoryState.back_pointer = some w.nextId) ∧
    lookupToken (CancelAll w) w.nextId = some ⟨1, false⟩ ∧
    (∀ i, i ≠ fs.back_pointer → i ≠ w.nextId →
      lookupToken (CancelAll w) i = lookupToken w i) := by
  obtain ⟨bp, hb⟩ :=
    Option.isSome_iff_exists.1 (hw.2.2.1 fs (by rw [hfs]; simp))
  have heq := cancelAll_eq hfs hb
  refine ⟨cancelAll_handles w, cancelAll_calls w,
    fun n => cancelAll_iterate_getObject n w, ?_, ?_, ?_⟩
  · rw [heq]
    simp
  · show assocFind (CancelAll w).tokens w.nextId = some ⟨1, false⟩
    rw [heq]
    dsimp only
    simp [assocFind]
  · intro i hit hin
    have hni : ¬ w.nextId = i := fun hx => hin hx.symm
    show assocFind (CancelAll w).tokens i = assocFind w.tokens i
    rw [heq]
    dsimp only
    rw [show assocFind ((w.nextId, (⟨1, false⟩ : BackPointer)) ::
          update
            (if bp.ref - 1 = 0 then removeKey w.tokens fs.back_pointer
             else update w.tokens fs.back_pointer fun b => ⟨b.ref - 1, false⟩)
            w.nextId (fun bp => { bp with ref := bp.ref + 1 })) i =
        assocFind
          (update
            (if bp.ref - 1 = 0 then removeKey w.tokens fs.back_pointer
             else update w.tokens fs.back_pointer fun b => ⟨b.ref - 1, false⟩)
            w.nextId (fun bp => { bp with ref := bp.ref + 1 })) i by
      simp [assocFind, hni]]
    rw [assocFind_update, if_neg hin]
    by_cases hz : bp.ref - 1 = 0
    · rw [if_pos hz, assocFind_removeKey, if_neg hit]
    · rw [if_neg hz, assocFind_update, if_neg hit]

/-- C1: evaluating the code on the failing input: with the factory's
owning object alive (`object_ = 5`, factory neither reset nor destroyed),
mint a callback bound to method `0` and run it with result `7`.  The claim
says the bound method is called exactly once with `7` (a trace of
`[(0, 7)]`); the code delivers nothing (`calls = []`), because the
`BackPointer()` constructor (line 132) leaves `factory_ = NULL` — the
`this` passed at line 184 matches no declared constructor — so
`GetObject()` in `Thunk` resolves to no target. -/
theorem c1_owner_alive_but_no_delivery :
    ((NewCallback (construct (some (5 : Nat))) 0).2.factory.bind FactoryState.object
        = some 5) ∧
    (Run (NewCallback (construct (some (5 : Nat))) 0).2
        (NewCallback (construct (some (5 : Nat))) 0).1 7).calls = [] := by
  decide

/-- C3: evaluating the code on the failing input: after `CancelAll`, mint
a fresh callback bound to method `1` and run it with result `42`.  The
claim says the new callback delivers normally (a trace of `[(1, 42)]`);
the code delivers nothing (`calls = []`) even though the owning object is
alive, because the fresh token minted by `InitBackPointer` is again not
bound to the factory (constructor at line 132).  The claim's other half —
a callback minted before `CancelAll` delivers nothing — does hold
(second conjunct). -/
theorem c3_post_cancel_mint_no_delivery :
    ((NewCallback (CancelAll (NewCallback (construct (some (5 : Nat))) 0).2) 1).2.factory.bind
        FactoryState.object = some 5) ∧
    (Run (NewCallback (CancelAll (NewCallback (construct (some (5 : Nat))) 0).2) 1).2
        (NewCallback (CancelAll (NewCallback (construct (some (5 : Nat))) 0).2) 1).1
        42).calls = [] ∧
    (Run (CancelAll (NewCallback (construct (some (5 : Nat))) 0).2) 1 9).calls = [] := by
  decide

/-- C4: evaluating the code right after construction: the factory's
current token is the fresh token `0` and the owning object is alive
(`GetObject()` would return it), yet resolving the token yields no target
— the claim says it should yield the owning object.  The token was never
bound to the factory: `BackPointer() : ref_(0), factory_(NULL)`
(line 132) ignores the factory, and the call `new BackPointer(this)`
(line 184) matches no declared constructor. -/
theorem c4_fresh_token_not_bound :
    ((construct (some (5 : Nat))).factory.map FactoryState.back_pointer = some 0) ∧
    ((construct (some (5 : Nat))).factory.bind FactoryState.object = some 5) ∧
    tokenGetObject (construct (some (5 : Nat))) 0 = none := by
  decide

theorem c2_stale_handle_invoke_safe_witness :
    Inv ((NewCallback (construct (some (5 : Nat))) 0).2) ∧
    (Run (destroyFactory (NewCallback (construct (some (5 : Nat))) 0).2) 1 7).calls =
      (destroyFactory (NewCallback (construct (some (5 : Nat))) 0).2).calls ∧
    lookupHandle
      (Run (destroyFactory (NewCallback (construct (some (5 : Nat))) 0).2) 1 7) 1 =
        none :=
  ⟨by decide,
   (c2_stale_handle_invoke_safe (NewCallback (construct (some (5 : Nat))) 0).2 1 7
      ⟨0, 0, .callbackImplThunk⟩ (by decide) (by decide) (by decide)).1.1,
   (c2_stale_handle_invoke_safe (NewCallback (construct (some (5 : Nat))) 0).2 1 7
      ⟨0, 0, .callbackImplThunk⟩ (by decide) (by decide) (by decide)).1.2.1⟩

theorem c5_refcount_matches_holders_witness :
    Inv (construct (some (5 : Nat))) ∧
    Inv (applyOp (construct (some (5 : Nat))) (Op.mint 0)) ∧
    ((lookupToken (construct (some (5 : Nat))) 0).isSome = true ↔
      0 < holders (construct (some (5 : Nat))) 0) :=
  ⟨c5_refcount_matches_holders.1 Nat (some 5),
   c5_refcount_matches_holders.2.1 Nat _ (Op.mint 0) (by decide),
   c5_refcount_matches_holders.2.2 Nat _ (by decide) 0⟩

theorem c6_invoke_always_consumes_witness :
    lookupHandle (Run (NewCallback (construct (some (5 : Nat))) 0).2 1 9) 1 = none ∧
    lookupToken (Run (NewCallback (construct (some (5 : Nat))) 0).2 1 9) 0 =
      some ⟨1, false⟩ :=
  ⟨(c6_invoke_always_consumes (NewCallback (construct (some (5 : Nat))) 0).2 1 9
      ⟨0, 0, .callbackImplThunk⟩ ⟨2, false⟩ (by decide) (by decide)).1,
   (c6_invoke_always_consumes (NewCallback (construct (some (5 : Nat))) 0).2 1 9
      ⟨0, 0, .callbackImplThunk⟩ ⟨2, false⟩ (by decide) (by decide)).2.2 (by decide)⟩

theorem c8_to_pp_pair_equiv_run_witness :
    invokePP (NewCallback (construct (some (5 : Nat))) 0).2
      (ToPP (NewCallback (construct (some (5 : Nat))) 0).2 (some 1)) 3 =
    Run (NewCallback (construct (some (5 : Nat))) 0).2 1 3 :=
  c8_to_pp_pair_equiv_run (NewCallback (construct (some (5 : Nat))) 0).2 1
    ⟨0, 0, .callbackImplThunk⟩ 3 (by decide)

theorem c10_cancel_all_frame_witness :
    (CancelAll (NewCallback (construct (some (5 : Nat))) 0).2).handles =
      (NewCallback (construct (some (5 : Nat))) 0).2.handles ∧
    lookupToken (CancelAll (NewCallback (construct (some (5 : Nat))) 0).2) 2 =
      some ⟨1, false⟩ :=
  ⟨(c10_cancel_all_frame (NewCallback (construct (some (5 : Nat))) 0).2 ⟨some 5, 0⟩
      (by decide) (by decide)).1,
   (c10_cancel_all_frame (NewCallback (construct (some (5 : Nat))) 0).2 ⟨some 5, 0⟩
      (by decide) (by decide)).2.2.2.2.1⟩

end PPAPI
